import Mathlib

/-!
Verification of the filter/sort/query engine of `invokedbapp.py` (InvokeAI
Models Viewer).  Python strings are embedded as `List Char`; the reactive
application state (`all_models`, `filtered_models`, the three filter strings,
`sort_column`, `sort_reverse`) is an explicit structure, and each event
handler of the source becomes a state-transformer on it.
-/

namespace InvokeDB

open List

/-- Python strings are modelled as lists of characters. -/
abbrev Str := List Char

/-- Python `str.lower()` (ASCII case mapping; `Char.toLower` lowercases
exactly the ASCII uppercase letters, which approximates Python's Unicode
lowercasing and coincides with it on ASCII data). -/
def lower (s : Str) : Str := s.map Char.toLower

/-- Python's substring test `needle in hay` on strings: contiguous infix. -/
def pyIn (needle hay : Str) : Bool := decide (needle <:+: hay)

/-- Characters stripped by Python `str.strip()` with no argument
(ASCII whitespace; `\x0b` and `\x0c` are vertical tab and form feed). -/
def pySpace (c : Char) : Bool :=
  c == ' ' || c == '\t' || c == '\n' || c == Char.ofNat 13 ||
  c == Char.ofNat 11 || c == Char.ofNat 12

/-- Python `str.strip()`: drop leading and trailing whitespace. -/
def pyStrip (s : Str) : Str :=
  ((s.dropWhile pySpace).reverse.dropWhile pySpace).reverse

/-- Python `", ".join`-style interleaving of a separator. -/
def joinSep (sep : Str) : List Str → Str
  | [] => []
  | [x] => x
  | x :: y :: t => x ++ sep ++ joinSep sep (y :: t)

/-- One normalized catalog entry: the dict built per row in
`ModelDatabase.load_models` (keys `name`, `type`, `subtype`, `triggers`,
`path`), lines 67-73 of the source. -/
structure Model where
  name : Str
  type : Str
  subtype : Str
  triggers : Str
  path : Str
deriving DecidableEq

/-- The three sortable/filterable columns: the values of `sort_column`
and of `column_map` in the source. -/
inductive SortCol where
  | name
  | type
  | subtype
deriving DecidableEq

/-- Python dict access `m[col]` for the three column keys. -/
def Model.field (m : Model) : SortCol → Str
  | .name => m.name
  | .type => m.type
  | .subtype => m.subtype

/-- The mutable state of `InvokeAIViewer` that the engine claims are about:
the record snapshot, the derived visible list, the three (already
lowercased) filter strings, and the sort key/direction. -/
structure AppState where
  all_models : List Model
  filtered_models : List Model
  filter_name : Str
  filter_type : Str
  filter_subtype : Str
  sort_column : SortCol
  sort_reverse : Bool
deriving DecidableEq

/-- The sort key of the source's line 305: `x[self.sort_column].lower()`. -/
def sortKeyOf (col : SortCol) (m : Model) : Str := lower (m.field col)

/-- The comparison realised by Python's stable `list.sort(key=..., reverse=...)`:
non-strict lexicographic comparison of the lowercased field, flipped when
`reverse` is set.  (CPython's sort is stable also for `reverse=True`: ties
keep their original relative order, which is exactly insertion sort on the
flipped non-strict comparison.) -/
def sortRel (col : SortCol) (rev : Bool) (a b : Model) : Prop :=
  if rev then sortKeyOf col b ≤ sortKeyOf col a
  else sortKeyOf col a ≤ sortKeyOf col b

instance (col : SortCol) (rev : Bool) : DecidableRel (sortRel col rev) := fun a b => by
  unfold sortRel; exact inferInstance

instance (col : SortCol) (rev : Bool) : IsTotal Model (sortRel col rev) where
  total a b := by unfold sortRel; cases rev <;> simp <;> exact le_total _ _

instance (col : SortCol) (rev : Bool) : IsTrans Model (sortRel col rev) where
  trans a b c := by
    unfold sortRel; cases rev <;> simp
    · exact fun h h' => le_trans h h'
    · exact fun h h' => le_trans h' h

/-- The successive filtering steps of `apply_filters` (lines 293-302): the
copy of `all_models` narrowed by the three filter strings in order, each
one only applied when non-empty (mirroring Python truthiness of the stored
filter string). -/
def filterChain (s : AppState) : List Model :=
  let f0 := s.all_models
  let f1 := if s.filter_name.isEmpty then f0 else
    f0.filter (fun m => pyIn s.filter_name (lower m.name))
  let f2 := if s.filter_type.isEmpty then f1 else
    f1.filter (fun m => pyIn s.filter_type (lower m.type))
  if s.filter_subtype.isEmpty then f2 else
    f2.filter (fun m => pyIn s.filter_subtype (lower m.subtype))

/-- Embeds `InvokeAIViewer.apply_filters` (lines 291-309): filter, then
stably sort by the lowercased field named by `sort_column`, reversed when
`sort_reverse`; the result replaces `filtered_models`. -/
def apply_filters (s : AppState) : AppState :=
  { s with filtered_models :=
      (filterChain s).insertionSort (sortRel s.sort_column s.sort_reverse) }

/-- The filter-field assignment of `on_input_changed` (lines 282-287):
store the lowercased input value into the filter named by the input id. -/
def updateFilter (id : SortCol) (value : Str) (s : AppState) : AppState :=
  match id with
  | .name => { s with filter_name := lower value }
  | .type => { s with filter_type := lower value }
  | .subtype => { s with filter_subtype := lower value }

/-- Embeds `InvokeAIViewer.on_input_changed` (lines 278-289): store the
lowercased input value into the filter named by the input id, then
recompute. -/
def on_input_changed (id : SortCol) (value : Str) (s : AppState) : AppState :=
  apply_filters (updateFilter id value s)

/-- The source's `column_map = {0: "name", 1: "type", 2: "subtype"}` with
`.get` returning `None` off-range (line 251-252). -/
def column_map (i : Nat) : Option SortCol :=
  if i = 0 then some .name
  else if i = 1 then some .type
  else if i = 2 then some .subtype
  else none

/-- Embeds `InvokeAIViewer.on_data_table_header_selected` (lines 246-276):
unknown column indices return before touching any state; clicking the
active column flips `sort_reverse`; clicking another column selects it and
resets `sort_reverse` to `False`; then the list is recomputed. -/
def on_data_table_header_selected (i : Nat) (s : AppState) : AppState :=
  match column_map i with
  | none => s
  | some col =>
    apply_filters <|
      if s.sort_column = col then { s with sort_reverse := !s.sort_reverse }
      else { s with sort_column := col, sort_reverse := false }

/-- Embeds `InvokeAIViewer.action_reset_filters` (lines 348-359): clear the
three filters and recompute (sort state untouched). -/
def action_reset_filters (s : AppState) : AppState :=
  apply_filters { s with filter_name := [], filter_type := [], filter_subtype := [] }

/-- The engine state right after `__init__`/`on_mount` (lines 199-206 and
239-240): empty filters, sort by name ascending, and
`filtered_models = all_models.copy()`. -/
def init_state (models : List Model) : AppState :=
  { all_models := models
    filtered_models := models
    filter_name := []
    filter_type := []
    filter_subtype := []
    sort_column := .name
    sort_reverse := false }

/-- One user-driven engine operation (filter text change, column-header
click, reset). -/
inductive Op where
  | input (id : SortCol) (value : Str)
  | header (i : Nat)
  | reset

/-- Dispatch one operation to its handler. -/
def stepOp (o : Op) (s : AppState) : AppState :=
  match o with
  | .input id v => on_input_changed id v s
  | .header i => on_data_table_header_selected i s
  | .reset => action_reset_filters s

/-- Run a sequence of user operations. -/
def runOps (ops : List Op) (s : AppState) : AppState :=
  ops.foldl (fun s o => stepOp o s) s

/-! ## POSIX paths (`pathlib.PurePosixPath`)

The source builds the symlink target with
`self.data_path / "models" / model_path` (pathlib `Path` objects, POSIX
flavour on the platform in question) and interpolates its `str()` into the
command.  A parsed path is a root (0 = relative, 1 = `/`, 2 = the POSIX
special `//`) plus components; parsing drops empty and `.` components, and
joining with an absolute right operand discards the left operand. -/

/-- Split a string at every `/` (keeping empty pieces). -/
def splitSlash : Str → List Str
  | [] => [[]]
  | c :: cs =>
    let r := splitSlash cs
    if c = '/' then [] :: r
    else match r with
      | [] => [[c]]
      | h :: t => (c :: h) :: t

/-- A parsed `PurePosixPath`: number of root slashes (0, 1 or 2) and the
retained components. -/
structure PosixPath where
  root : Nat
  parts : List Str
deriving DecidableEq

/-- Parse a string as `PurePosixPath` does: empty and `.` components are
dropped; exactly two leading slashes are preserved as a special root, one
or three-or-more collapse to a single root slash. -/
def parsePosix (s : Str) : PosixPath :=
  { root :=
      if s.take 2 = ['/', '/'] ∧ s.take 3 ≠ ['/', '/', '/'] then 2
      else if s.take 1 = ['/'] then 1
      else 0
    parts := (splitSlash s).filter (fun c => ¬c.isEmpty ∧ c ≠ ['.']) }

/-- `pathlib`'s `/` operator `p / seg`: if `seg` parses as absolute it
replaces `p` wholesale, otherwise its components are appended. -/
def joinSeg (p : PosixPath) (seg : Str) : PosixPath :=
  let q := parsePosix seg
  if q.root ≠ 0 then q else { root := p.root, parts := p.parts ++ q.parts }

/-- `str()` of a `PurePosixPath`: the root slashes followed by the
components joined with `/`; the empty relative path prints as `.`. -/
def renderPosix (p : PosixPath) : Str :=
  if p.root = 0 ∧ p.parts = [] then ['.']
  else List.replicate p.root '/' ++ joinSep ['/'] p.parts

/-- One symlink command of line 373-374:
`ln -s "{data_path / "models" / model_path}" .`. -/
def symlinkCmd (data_path model_path : Str) : Str :=
  let full := renderPosix (joinSeg (joinSeg (parsePosix data_path) "models".toList) model_path)
  "ln -s ".toList ++ [Char.ofNat 34] ++ full ++ [Char.ofNat 34] ++ " .".toList

/-- Outcome of the generate-symlinks action: the two early-return error
paths of lines 363-365 and 376-378 (nothing reaches the clipboard), or the
joined command text handed to `pyperclip.copy` together with the reported
count. -/
inductive SymlinkOutcome where
  | noTargets
  | noValidPaths
  | copied (text : Str) (count : Nat)
deriving DecidableEq

/-- Embeds `InvokeAIViewer.action_generate_symlinks` (lines 361-387):
error out when `filtered_models` is empty; otherwise emit one command per
record whose `path` is non-empty and has a non-empty `strip()`, in list
order; error out distinctly when no command was emitted; otherwise join
with newlines for the clipboard. -/
def action_generate_symlinks (data_path : Str) (s : AppState) : SymlinkOutcome :=
  if s.filtered_models.isEmpty then .noTargets
  else
    let symlinks := s.filtered_models.filterMap (fun m =>
      if ¬m.path.isEmpty ∧ ¬(pyStrip m.path).isEmpty then
        some (symlinkCmd data_path m.path)
      else none)
    if symlinks.isEmpty then .noValidPaths
    else .copied (joinSep ['\n'] symlinks) symlinks.length

/-! ## Python JSON values and `json.loads`

The trigger-phrase payload of a row is decoded with `json.loads` (line 57).
JSON/Python values are modelled by `PyJson` (a mutual inductive so that the
Python `str()`/`repr()` rendering below is structurally recursive).
Non-integer numbers are carried as their source literal; Python would
re-render them through binary floating point, which agrees with the literal
for the short decimal forms at issue here. -/

mutual
inductive PyJson where
  | null
  | bool (b : Bool)
  | int (n : Int)
  | float (raw : Str)
  | str (s : Str)
  | arr (xs : PyJsonList)
  | obj (kvs : PyJsonPairs)
inductive PyJsonList where
  | nil
  | cons (v : PyJson) (tl : PyJsonList)
inductive PyJsonPairs where
  | pnil
  | pcons (k : Str) (v : PyJson) (tl : PyJsonPairs)
end

/-- View a parsed JSON array as a plain Lean list. -/
def PyJsonList.toList : PyJsonList → List PyJson
  | .nil => []
  | .cons v t => v :: t.toList

/-- Build a parsed JSON array from a plain Lean list. -/
def PyJsonList.ofList : List PyJson → PyJsonList
  | [] => .nil
  | v :: t => .cons v (ofList t)

/-- Decimal rendering of a natural number, as Python prints it. -/
def natToStr (n : Nat) : Str := Nat.toDigits 10 n

/-- Decimal rendering of an integer, as Python prints it. -/
def intToStr (n : Int) : Str :=
  if n < 0 then '-' :: natToStr n.natAbs else natToStr n.toNat

mutual
/-- Python `repr()` of a decoded JSON value (`repr` and `str` differ only
on strings, which `repr` wraps in single quotes; the quoting of exotic
string contents is approximated by plain quoting). -/
def pyRepr : PyJson → Str
  | .null => "None".toList
  | .bool b => if b then "True".toList else "False".toList
  | .int n => intToStr n
  | .float raw => raw
  | .str s => Char.ofNat 39 :: s ++ [Char.ofNat 39]
  | .arr xs => Char.ofNat 91 :: pyReprList xs ++ [Char.ofNat 93]
  | .obj kvs => Char.ofNat 123 :: pyReprPairs kvs ++ [Char.ofNat 125]
termination_by structural v => v
/-- `repr` of the comma-separated elements of a list. -/
def pyReprList : PyJsonList → Str
  | .nil => []
  | .cons v tl =>
    pyRepr v ++ (match tl with | .nil => [] | .cons _ _ => ", ".toList) ++ pyReprList tl
termination_by structural l => l
/-- `repr` of the comma-separated `key: value` members of a dict. -/
def pyReprPairs : PyJsonPairs → Str
  | .pnil => []
  | .pcons k v tl =>
    (Char.ofNat 39 :: k ++ [Char.ofNat 39]) ++ ": ".toList ++ pyRepr v ++
      (match tl with | .pnil => [] | .pcons _ _ _ => ", ".toList) ++ pyReprPairs tl
termination_by structural l => l
end

/-- Python `str()` of a decoded JSON value: identity on strings, `repr`
otherwise (`str` and `repr` agree on `None`, booleans, numbers and
containers). -/
def pyStr : PyJson → Str
  | .str s => s
  | v => pyRepr v

/-- The whitespace `json.loads` skips between tokens. -/
def isJsonWs (c : Char) : Bool :=
  c == ' ' || c == '\t' || c == '\n' || c == Char.ofNat 13

/-- Skip inter-token whitespace. -/
def skipWs (s : Str) : Str := s.dropWhile isJsonWs

/-- Value of one hexadecimal digit. -/
def hexDigitVal (c : Char) : Option Nat :=
  if '0' ≤ c ∧ c ≤ '9' then some (c.toNat - 48)
  else if 'a' ≤ c ∧ c ≤ 'f' then some (c.toNat - 87)
  else if 'A' ≤ c ∧ c ≤ 'F' then some (c.toNat - 55)
  else none

/-- Four hexadecimal digits of a `\uXXXX` escape. -/
def parseHex4 (s : Str) : Option (Nat × Str) :=
  match s with
  | a :: b :: c :: d :: rest =>
    match hexDigitVal a, hexDigitVal b, hexDigitVal c, hexDigitVal d with
    | some x, some y, some z, some w => some (((x * 16 + y) * 16 + z) * 16 + w, rest)
    | _, _, _, _ => none
  | _ => none

/-- The single-character JSON string escapes. -/
def escChar (c : Char) : Option Char :=
  if c == Char.ofNat 34 then some (Char.ofNat 34)
  else if c == '\\' then some '\\'
  else if c == '/' then some '/'
  else if c == 'b' then some (Char.ofNat 8)
  else if c == 'f' then some (Char.ofNat 12)
  else if c == 'n' then some '\n'
  else if c == 'r' then some (Char.ofNat 13)
  else if c == 't' then some '\t'
  else none

/-- Scan a JSON string body after the opening quote, returning the decoded
string and the input after the closing quote.  Mirrors Python's strict
scanner: raw control characters are rejected; `\uXXXX` yields the code
unit (surrogate-pair recombination approximated by the raw unit). -/
def parseJStr : Nat → Str → Option (Str × Str)
  | 0, _ => none
  | _ + 1, [] => none
  | fuel + 1, c :: cs =>
    if c == Char.ofNat 34 then some ([], cs)
    else if c == '\\' then
      match cs with
      | [] => none
      | e :: cs' =>
        if e == 'u' then
          match parseHex4 cs' with
          | none => none
          | some (n, rest) =>
            (parseJStr fuel rest).map (fun p => (Char.ofNat n :: p.1, p.2))
        else
          match escChar e with
          | none => none
          | some ch => (parseJStr fuel cs').map (fun p => (ch :: p.1, p.2))
    else if c.toNat < 32 then none
    else (parseJStr fuel cs).map (fun p => (c :: p.1, p.2))

/-- Longest digit span at the head of the input. -/
def spanDigits : Str → Str × Str
  | [] => ([], [])
  | c :: cs =>
    if c.isDigit then
      let (d, r) := spanDigits cs
      (c :: d, r)
    else ([], c :: cs)

/-- Numeric value of a digit string. -/
def digitsToNat (ds : Str) : Nat := ds.foldl (fun acc c => acc * 10 + (c.toNat - 48)) 0

/-- A literal keyword at the head of the input. -/
def expectLit (lit s : Str) : Option Str :=
  if lit <+: s then some (s.drop lit.length) else none

/-- The fraction part `.digits` of a JSON number, if present. -/
def parseFrac (s : Str) : Option (Str × Str) :=
  match s with
  | '.' :: t =>
    match spanDigits t with
    | ([], _) => none
    | (ds, r) => some ('.' :: ds, r)
  | _ => none

/-- The exponent part `[eE][+-]?digits` of a JSON number, if present. -/
def parseExp (s : Str) : Option (Str × Str) :=
  match s with
  | [] => none
  | c :: t =>
    if c == 'e' || c == 'E' then
      let (sign, t2) : Str × Str :=
        match t with
        | '+' :: u => (['+'], u)
        | '-' :: u => (['-'], u)
        | _ => ([], t)
      match spanDigits t2 with
      | ([], _) => none
      | (ds, r) => some (c :: sign ++ ds, r)
    else none

/-- A JSON number (grammar `-?(0|[1-9][0-9]*)(\.[0-9]+)?([eE][+-]?[0-9]+)?`,
as Python's scanner matches it): pure integers decode to Python ints,
anything with a fraction or exponent to a float carried as its literal. -/
def parseNum (s : Str) : Option (PyJson × Str) :=
  let (neg, s1) : Bool × Str :=
    match s with
    | '-' :: t => (true, t)
    | _ => (false, s)
  match s1 with
  | [] => none
  | c :: cs =>
    if ¬c.isDigit then none
    else
      let (ids, rest) := if c == '0' then (['0'], cs) else spanDigits (c :: cs)
      let (fracTxt, rest2) : Str × Str :=
        match parseFrac rest with
        | some (t, r) => (t, r)
        | none => ([], rest)
      let (expTxt, rest3) : Str × Str :=
        match parseExp rest2 with
        | some (t, r) => (t, r)
        | none => ([], rest2)
      if fracTxt.isEmpty ∧ expTxt.isEmpty then
        some (.int (if neg then -(Int.ofNat (digitsToNat ids)) else Int.ofNat (digitsToNat ids)), rest)
      else
        some (.float ((if neg then ['-'] else []) ++ ids ++ fracTxt ++ expTxt), rest3)

/-- Comma-separated JSON array elements up to the closing bracket, given a
parser `p` for one value. -/
def parseElems (p : Str → Option (PyJson × Str)) : Nat → Str → Option (PyJsonList × Str)
  | 0, _ => none
  | fuel + 1, s =>
    match p s with
    | none => none
    | some (v, r) =>
      match skipWs r with
      | [] => none
      | c :: t =>
        if c == ',' then (parseElems p fuel t).map (fun q => (.cons v q.1, q.2))
        else if c == Char.ofNat 93 then some (.cons v .nil, t)
        else none

/-- Comma-separated JSON object members up to the closing brace, given a
parser `p` for one value and `pstr` for one string body. -/
def parseMembers (p : Str → Option (PyJson × Str)) (pstr : Str → Option (Str × Str)) :
    Nat → Str → Option (PyJsonPairs × Str)
  | 0, _ => none
  | fuel + 1, s =>
    match skipWs s with
    | [] => none
    | c :: t =>
      if c == Char.ofNat 34 then
        match pstr t with
        | none => none
        | some (k, r) =>
          match skipWs r with
          | ':' :: r2 =>
            match p r2 with
            | none => none
            | some (v, r3) =>
              match skipWs r3 with
              | [] => none
              | d :: t3 =>
                if d == ',' then
                  (parseMembers p pstr fuel t3).map (fun q => (.pcons k v q.1, q.2))
                else if d == Char.ofNat 125 then some (.pcons k v .pnil, t3)
                else none
          | _ => none
      else none

/-- One JSON value (with leading whitespace), returning the decoded value
and the remaining input.  Mirrors Python's decoder, including its
`NaN`/`Infinity`/`-Infinity` extensions. -/
def parseVal : Nat → Str → Option (PyJson × Str)
  | 0, _ => none
  | fuel + 1, s =>
    match skipWs s with
    | [] => none
    | c :: cs =>
      if c == 'n' then (expectLit "ull".toList cs).map (fun r => (.null, r))
      else if c == 't' then (expectLit "rue".toList cs).map (fun r => (.bool true, r))
      else if c == 'f' then (expectLit "alse".toList cs).map (fun r => (.bool false, r))
      else if c == 'N' then (expectLit "aN".toList cs).map (fun r => (.float "nan".toList, r))
      else if c == 'I' then
        (expectLit "nfinity".toList cs).map (fun r => (.float "inf".toList, r))
      else if c == '-' && cs.take 1 = ['I'] then
        (expectLit "Infinity".toList cs).map (fun r => (.float "-inf".toList, r))
      else if c == Char.ofNat 34 then
        (parseJStr (fuel + 1) cs).map (fun p => (.str p.1, p.2))
      else if c == Char.ofNat 91 then
        match skipWs cs with
        | c1 :: t1 =>
          if c1 == Char.ofNat 93 then some (.arr .nil, t1)
          else (parseElems (parseVal fuel) (fuel + 1) (c1 :: t1)).map (fun q => (.arr q.1, q.2))
        | [] => none
      else if c == Char.ofNat 123 then
        match skipWs cs with
        | c1 :: t1 =>
          if c1 == Char.ofNat 125 then some (.obj .pnil, t1)
          else (parseMembers (parseVal fuel) (parseJStr (fuel + 1)) (fuel + 1) (c1 :: t1)).map
            (fun q => (.obj q.1, q.2))
        | [] => none
      else if c == '-' || c.isDigit then parseNum (c :: cs)
      else none

/-- Embeds `json.loads`: parse one value and insist the rest of the input
is whitespace; `none` is Python's `JSONDecodeError`. -/
def jsonLoads (s : Str) : Option PyJson :=
  match parseVal (s.length + 1) s with
  | some (v, rest) => if (skipWs rest).isEmpty then some v else none
  | none => none

/-! ## Loading rows (`ModelDatabase.load_models`) -/

/-- One raw row of the `models` query (lines 34-45): the five
`json_extract` results, each possibly SQL `NULL`.  (The extracted values
are modelled as text; for the `trigger_phrases` column SQLite returns the
JSON source text of the stored array.) -/
structure Row where
  model_name : Option Str
  model_type : Option Str
  model_base : Option Str
  trigger_phrases_json : Option Str
  model_path : Option Str

/-- Embeds the trigger-phrase decoding of lines 53-61: a falsy payload
(absent or empty) yields `[]`; a payload that decodes to a JSON array is
kept as-is; any other successfully decoded value is wrapped as
`[str(value)]`; a decode failure is swallowed and yields `[]`. -/
def parse_triggers (payload : Option Str) : List PyJson :=
  match payload with
  | none => []
  | some s =>
    if s.isEmpty then []
    else
      match jsonLoads s with
      | some (.arr xs) => xs.toList
      | some v => [.str (pyStr v)]
      | none => []

/-- The last component of a path (`PurePosixPath.name`, `''` for the
root or empty path). -/
def pathName (s : Str) : Str := (parsePosix s).parts.getLastD []

/-- `PurePosixPath.suffix`: the part of the final component from its last
dot, provided that dot is neither the first nor the last character. -/
def pathSuffix (s : Str) : Str :=
  let nm := pathName s
  match nm.reverse.findIdx? (fun c => c == '.') with
  | none => []
  | some j =>
    let i := nm.length - 1 - j
    if 0 < i ∧ i < nm.length - 1 then nm.drop i else []

/-- Python's string coercion for the list elements handed to
`", ".join` (the source's lists come from JSON; `join` itself would raise
on a non-string element, a case the claims do not reach, totalised here
by `str()`). -/
def strOfJson : PyJson → Str
  | .str s => s
  | v => pyStr v

/-- Python's `value or "Unknown"` on a nullable string: the literal
`"Unknown"` replaces both SQL `NULL` and the (falsy) empty string. -/
def orUnknown (v : Option Str) : Str :=
  match v with
  | none => "Unknown".toList
  | some n => if n.isEmpty then "Unknown".toList else n

/-- Embeds the per-row normalisation of lines 50-73: decode triggers,
derive the display name as `f"{model_name or 'Unknown'}{ext}"` with `ext`
the path suffix of a truthy path, default the classification fields with
`or "Unknown"`, the path with `or ""`, and comma-join the triggers. -/
def load_row (r : Row) : Model :=
  let triggers := parse_triggers r.trigger_phrases_json
  let ext : Str :=
    match r.model_path with
    | none => []
    | some p => if p.isEmpty then [] else pathSuffix p
  { name := orUnknown r.model_name ++ ext
    type := orUnknown r.model_type
    subtype := orUnknown r.model_base
    triggers := if triggers.isEmpty then [] else joinSep ", ".toList (triggers.map strOfJson)
    path := r.model_path.getD [] }

/-- Embeds `ModelDatabase.load_models` on the fetched rows. -/
def load_models (rows : List Row) : List Model := rows.map load_row

/-! ## Cleanliness of paths, and concrete sample data -/

/-- A storage path is clean when it is a non-empty normalised relative
path: parsing it keeps no root and at least one component, and rendering
the parse reproduces it verbatim (so it has no leading `/`, no empty or
`.` components, no trailing `/`). -/
def cleanRel (p : Str) : Prop :=
  (parsePosix p).root = 0 ∧ (parsePosix p).parts ≠ [] ∧ renderPosix (parsePosix p) = p

instance (p : Str) : Decidable (cleanRel p) := by unfold cleanRel; exact inferInstance

/-- A base path is clean when it is a normalised absolute path with at
least one component whose rendering reproduces it verbatim. -/
def cleanAbs (b : Str) : Prop :=
  (parsePosix b).root = 1 ∧ (parsePosix b).parts ≠ [] ∧ renderPosix (parsePosix b) = b

instance (b : Str) : Decidable (cleanAbs b) := by unfold cleanAbs; exact inferInstance

/-- The spec's end-to-end sample row `{name:"foo", type:"lora", base:"sdxl",
path:"u1/foo.safetensors"}`. -/
def rowFoo : Row :=
  { model_name := some "foo".toList
    model_type := some "lora".toList
    model_base := some "sdxl".toList
    trigger_phrases_json := none
    model_path := some "u1/foo.safetensors".toList }

/-- The spec's end-to-end sample row `{name:"bar", type:"main", base:"sd1",
path:null}`. -/
def rowBar : Row :=
  { model_name := some "bar".toList
    model_type := some "main".toList
    model_base := some "sd1".toList
    trigger_phrases_json := none
    model_path := none }

/-- Sample record A of the symlink-generation example (`path="x/a.pt"`). -/
def modelA : Model :=
  { name := "A".toList, type := [], subtype := [], triggers := [], path := "x/a.pt".toList }

/-- Sample record B of the symlink-generation example (blank path). -/
def modelB : Model :=
  { name := "B".toList, type := [], subtype := [], triggers := [], path := [] }

/-- Sample record C of the symlink-generation example (`path="y/c.pt"`). -/
def modelC : Model :=
  { name := "C".toList, type := [], subtype := [], triggers := [], path := "y/c.pt".toList }

/-- The symlink-generation example state: `visibleRecords = [A, B, C]`. -/
def exampleState : AppState := init_state [modelA, modelB, modelC]

/-! ## Helper lemmas -/

@[simp]
theorem apply_filters_all_models (s : AppState) : (apply_filters s).all_models = s.all_models := rfl

@[simp]
theorem apply_filters_filter_name (s : AppState) :
    (apply_filters s).filter_name = s.filter_name := rfl

@[simp]
theorem apply_filters_filter_type (s : AppState) :
    (apply_filters s).filter_type = s.filter_type := rfl

@[simp]
theorem apply_filters_filter_subtype (s : AppState) :
    (apply_filters s).filter_subtype = s.filter_subtype := rfl

@[simp]
theorem apply_filters_sort_column (s : AppState) :
    (apply_filters s).sort_column = s.sort_column := rfl

@[simp]
theorem apply_filters_sort_reverse (s : AppState) :
    (apply_filters s).sort_reverse = s.sort_reverse := rfl

theorem apply_filters_filtered_models (s : AppState) :
    (apply_filters s).filtered_models =
      (filterChain s).insertionSort (sortRel s.sort_column s.sort_reverse) := rfl

theorem pyIn_iff (needle hay : Str) : pyIn needle hay = true ↔ needle <:+: hay := by
  simp [pyIn]

/-- Membership in the filter chain is exactly the conjunction of the three
substring predicates (an empty stored filter is skipped by the code, and
the empty string is an infix of everything, so the two readings agree). -/
theorem mem_filterChain (s : AppState) (m : Model) :
    m ∈ filterChain s ↔
      m ∈ s.all_models ∧ s.filter_name <:+: lower m.name ∧
        s.filter_type <:+: lower m.type ∧ s.filter_subtype <:+: lower m.subtype := by
  unfold filterChain
  rcases hn : s.filter_name.isEmpty with _ | _ <;>
    rcases ht : s.filter_type.isEmpty with _ | _ <;>
      rcases hs : s.filter_subtype.isEmpty with _ | _ <;>
        simp_all [List.isEmpty_iff, List.mem_filter, pyIn, and_assoc] <;>
          tauto

theorem filterChain_sublist (s : AppState) : filterChain s <+ s.all_models := by
  unfold filterChain
  rcases hn : s.filter_name.isEmpty with _ | _ <;>
    rcases ht : s.filter_type.isEmpty with _ | _ <;>
      rcases hs : s.filter_subtype.isEmpty with _ | _ <;>
        simp only [Bool.false_eq_true, if_false, if_true] <;>
          first
            | exact List.Sublist.refl _
            | exact List.filter_sublist _
            | exact (List.filter_sublist _).trans (List.filter_sublist _)
            | exact ((List.filter_sublist _).trans (List.filter_sublist _)).trans
                (List.filter_sublist _)

/-- The filter chain only reads `all_models` and the three filter strings;
recomputation and sort-state changes leave it unchanged. -/
theorem filterChain_congr {s t : AppState} (hall : s.all_models = t.all_models)
    (h1 : s.filter_name = t.filter_name) (h2 : s.filter_type = t.filter_type)
    (h3 : s.filter_subtype = t.filter_subtype) : filterChain s = filterChain t := by
  unfold filterChain
  rw [hall, h1, h2, h3]

theorem mem_apply_filters (s : AppState) (m : Model) :
    m ∈ (apply_filters s).filtered_models ↔ m ∈ filterChain s := by
  rw [apply_filters_filtered_models]
  exact List.mem_insertionSort _

/-- Inserting `a` commutes with filtering by a predicate `p` that is
`r`-reflexive across `p`-elements: if `p a` holds, `a` lands in front of
every later `p`-element (stability of ordered insertion). -/
theorem filter_orderedInsert {α : Type} (r : α → α → Prop) [DecidableRel r] (p : α → Bool)
    (a : α) (h : ∀ b, p a = true → p b = true → r a b) :
    ∀ l : List α, (l.orderedInsert r a).filter p =
      if p a then a :: l.filter p else l.filter p
  | [] => by cases hpa : p a <;> simp [List.orderedInsert, hpa]
  | b :: l => by
    rw [List.orderedInsert]
    by_cases hab : r a b
    · rw [if_pos hab]
      cases hpa : p a <;> simp [List.filter_cons, hpa]
    · rw [if_neg hab]
      have ih := filter_orderedInsert r p a h l
      cases hpa : p a with
      | false =>
        rw [if_neg (by simp [hpa])] at ih
        cases hpb : p b <;> simp [List.filter_cons, hpb, hpa, ih]
      | true =>
        have hpb : p b = false := by
          cases hpb : p b
          · rfl
          · exact absurd (h b hpa hpb) hab
        rw [if_pos hpa] at ih
        simp [List.filter_cons, hpb, hpa, ih]

/-- Stability of insertion sort, phrased through filtering: the elements
satisfying `p` appear in the sorted output in exactly their input order,
whenever `p`-elements are mutually related by `r`. -/
theorem filter_insertionSort {α : Type} (r : α → α → Prop) [DecidableRel r] (p : α → Bool)
    (h : ∀ a b, p a = true → p b = true → r a b) :
    ∀ l : List α, (l.insertionSort r).filter p = l.filter p
  | [] => rfl
  | a :: l => by
    rw [List.insertionSort, filter_orderedInsert r p a (h a), List.filter]
    cases hpa : p a <;> simp [filter_insertionSort r p h l]

theorem joinSep_append (sep : Str) :
    ∀ xs ys : List Str, xs ≠ [] → ys ≠ [] →
      joinSep sep (xs ++ ys) = joinSep sep xs ++ sep ++ joinSep sep ys
  | [], _, hx, _ => absurd rfl hx
  | [x], y :: t, _, _ => by simp [joinSep]
  | x :: x2 :: t, y :: u, _, hy => by
    have ih := joinSep_append sep (x2 :: t) (y :: u) (by simp) hy
    simp only [List.cons_append] at ih
    simp only [List.cons_append, joinSep, List.append_eq]
    rw [ih]
    simp [List.append_assoc]

/-! ## Claim theorems -/

/-- C1: for every loaded record set and every triple of filter strings,
after recomputation a record is in `visibleRecords` iff the lowercased
filter strings are substrings of the lowercased `displayName`, `modelType`
and `modelSubtype` respectively; the predicates are conjoined, and an
empty filter matches everything for its field (the empty string is an
infix of every string, so the code's skip-empty-filter shortcut realises
exactly this conjunction). -/
theorem conjunctive_filter_membership (models : List Model) (fn ft fs : Str) (r : Model) :
    r ∈ (on_input_changed .subtype fs (on_input_changed .type ft
        (on_input_changed .name fn (init_state models)))).filtered_models ↔
      r ∈ models ∧ lower fn <:+: lower r.name ∧ lower ft <:+: lower r.type ∧
        lower fs <:+: lower r.subtype := by
  rw [show on_input_changed .subtype fs (on_input_changed .type ft
      (on_input_changed .name fn (init_state models))) =
    apply_filters (updateFilter .subtype fs (on_input_changed .type ft
      (on_input_changed .name fn (init_state models)))) from rfl]
  rw [mem_apply_filters, mem_filterChain]
  exact Iff.rfl

/-- C3: recomputation orders `visibleRecords` by a stable sort on the
lowercased field named by `sortKey`: the output is a permutation of the
filtered input, it is sorted ascending by the key when `sortDescending`
is false and descending when it is true, and records with equal sort keys
keep their relative order from the filtered input (phrased as: filtering
the output by any key value reproduces the same filtering of the input). -/
theorem stable_sort_order (s : AppState) :
    ((apply_filters s).filtered_models ~ filterChain s) ∧
    (s.sort_reverse = false → (apply_filters s).filtered_models.Sorted
      (fun a b => sortKeyOf s.sort_column a ≤ sortKeyOf s.sort_column b)) ∧
    (s.sort_reverse = true → (apply_filters s).filtered_models.Sorted
      (fun a b => sortKeyOf s.sort_column b ≤ sortKeyOf s.sort_column a)) ∧
    (∀ k : Str,
      (apply_filters s).filtered_models.filter (fun m => sortKeyOf s.sort_column m = k) =
        (filterChain s).filter (fun m => sortKeyOf s.sort_column m = k)) := by
  refine ⟨?_, ?_, ?_, ?_⟩
  · rw [apply_filters_filtered_models]
    exact List.perm_insertionSort _ _
  · intro h
    rw [apply_filters_filtered_models, h]
    exact List.sorted_insertionSort (sortRel s.sort_column false) _
  · intro h
    rw [apply_filters_filtered_models, h]
    exact List.sorted_insertionSort (sortRel s.sort_column true) _
  · intro k
    rw [apply_filters_filtered_models]
    refine filter_insertionSort _ _ (fun a b ha hb => ?_) _
    have ha' : sortKeyOf s.sort_column a = k := of_decide_eq_true ha
    have hb' : sortKeyOf s.sort_column b = k := of_decide_eq_true hb
    unfold sortRel
    cases s.sort_reverse <;> simp [ha', hb']

/-- C9: `reset()` clears the three filters, recomputes, leaves the sort
key/direction (and the record snapshot) unchanged, and is idempotent:
applying it twice gives the same full engine state as applying it once. -/
theorem reset_filters_spec (s : AppState) :
    (action_reset_filters s).filter_name = [] ∧
    (action_reset_filters s).filter_type = [] ∧
    (action_reset_filters s).filter_subtype = [] ∧
    (action_reset_filters s).sort_column = s.sort_column ∧
    (action_reset_filters s).sort_reverse = s.sort_reverse ∧
    (action_reset_filters s).all_models = s.all_models ∧
    action_reset_filters (action_reset_filters s) = action_reset_filters s :=
  ⟨rfl, rfl, rfl, rfl, rfl, rfl, rfl⟩

/-- C10: a column-header event whose index is outside the three known
columns is a complete no-op on the engine state (the handler returns
before touching sort state, filters or the visible list). -/
theorem header_selected_out_of_range (s : AppState) (i : Nat)
    (h0 : i ≠ 0) (h1 : i ≠ 1) (h2 : i ≠ 2) :
    on_data_table_header_selected i s = s := by
  unfold on_data_table_header_selected column_map
  simp [h0, h1, h2]

/-- Witness for C10 at the concrete index 3. -/
theorem header_selected_out_of_range_witness :
    on_data_table_header_selected 3 (init_state []) = init_state [] :=
  header_selected_out_of_range (init_state []) 3 (by decide) (by decide) (by decide)

/-- C5: symlink generation yields `NoTargets` exactly when
`visibleRecords` is empty, yields the distinct `NoValidPaths` signal
exactly when the list is non-empty but every record's path is empty or
whitespace-only, and in both failure cases nothing is handed to the
clipboard sink. -/
theorem generate_symlinks_failure_cases (base : Str) (s : AppState) :
    (action_generate_symlinks base s = .noTargets ↔ s.filtered_models = []) ∧
    (action_generate_symlinks base s = .noValidPaths ↔
      s.filtered_models ≠ [] ∧
        ∀ m ∈ s.filtered_models, m.path = [] ∨ pyStrip m.path = []) ∧
    ((s.filtered_models = [] ∨ ∀ m ∈ s.filtered_models, m.path = [] ∨ pyStrip m.path = []) →
      ∀ text count, action_generate_symlinks base s ≠ .copied text count) := by
  unfold action_generate_symlinks
  by_cases hne : s.filtered_models.isEmpty
  · rw [if_pos hne]
    rw [List.isEmpty_iff] at hne
    simp [hne]
  · rw [if_neg hne]
    rw [List.isEmpty_iff] at hne
    have hval : (s.filtered_models.filterMap (fun m =>
        if ¬m.path.isEmpty ∧ ¬(pyStrip m.path).isEmpty then
          some (symlinkCmd base m.path)
        else none)).isEmpty = true ↔
        ∀ m ∈ s.filtered_models, m.path = [] ∨ pyStrip m.path = [] := by
      rw [List.isEmpty_iff, List.filterMap_eq_nil_iff]
      constructor
      · intro h m hm
        have := h m hm
        by_cases h1 : m.path.isEmpty <;> by_cases h2 : (pyStrip m.path).isEmpty <;>
          simp_all [List.isEmpty_iff]
      · intro h m hm
        rcases h m hm with h1 | h1 <;> simp [h1, List.isEmpty_iff]
    by_cases hv : (s.filtered_models.filterMap (fun m =>
        if ¬m.path.isEmpty ∧ ¬(pyStrip m.path).isEmpty then
          some (symlinkCmd base m.path)
        else none)).isEmpty
    · rw [if_pos hv]
      have hall := hval.mp hv
      refine ⟨by simp [hne], ⟨fun _ => ⟨hne, hall⟩, fun _ => rfl⟩, ?_⟩
      intro _ text count h
      exact SymlinkOutcome.noConfusion h
    · rw [if_neg hv]
      refine ⟨by simp [hne], ⟨fun h => SymlinkOutcome.noConfusion h, ?_⟩, ?_⟩
      · intro h
        exact absurd (hval.mpr h.2) hv
      · intro hdis text count h
        rcases hdis with hd | hd
        · exact hne hd
        · exact hv (hval.mpr hd)

/-- C2: clicking a valid column header toggles as specified (same column
flips `sort_reverse` and keeps `sort_column`; a different column selects
it and resets `sort_reverse` to false); consequently, from the default
state (sort by name, not reversed), clicking the type column twice gives
the filtered set sorted descending by lowercased type, and a third click
gives it ascending. -/
theorem sort_toggle_contract :
    (∀ (s : AppState) (i : Nat) (col : SortCol), column_map i = some col →
      ((s.sort_column = col →
        (on_data_table_header_selected i s).sort_column = s.sort_column ∧
        (on_data_table_header_selected i s).sort_reverse = !s.sort_reverse) ∧
       (s.sort_column ≠ col →
        (on_data_table_header_selected i s).sort_column = col ∧
        (on_data_table_header_selected i s).sort_reverse = false))) ∧
    (∀ (all vis : List Model) (fn ft fs : Str),
      (on_data_table_header_selected 1 (on_data_table_header_selected 1
          ⟨all, vis, fn, ft, fs, .name, false⟩)).sort_column = .type ∧
      (on_data_table_header_selected 1 (on_data_table_header_selected 1
          ⟨all, vis, fn, ft, fs, .name, false⟩)).sort_reverse = true ∧
      ((on_data_table_header_selected 1 (on_data_table_header_selected 1
          ⟨all, vis, fn, ft, fs, .name, false⟩)).filtered_models ~
        filterChain ⟨all, vis, fn, ft, fs, .name, false⟩) ∧
      (on_data_table_header_selected 1 (on_data_table_header_selected 1
          ⟨all, vis, fn, ft, fs, .name, false⟩)).filtered_models.Sorted
        (fun a b => sortKeyOf .type b ≤ sortKeyOf .type a) ∧
      (on_data_table_header_selected 1 (on_data_table_header_selected 1
          (on_data_table_header_selected 1
            ⟨all, vis, fn, ft, fs, .name, false⟩))).sort_column = .type ∧
      (on_data_table_header_selected 1 (on_data_table_header_selected 1
          (on_data_table_header_selected 1
            ⟨all, vis, fn, ft, fs, .name, false⟩))).sort_reverse = false ∧
      ((on_data_table_header_selected 1 (on_data_table_header_selected 1
          (on_data_table_header_selected 1
            ⟨all, vis, fn, ft, fs, .name, false⟩))).filtered_models ~
        filterChain ⟨all, vis, fn, ft, fs, .name, false⟩) ∧
      (on_data_table_header_selected 1 (on_data_table_header_selected 1
          (on_data_table_header_selected 1
            ⟨all, vis, fn, ft, fs, .name, false⟩))).filtered_models.Sorted
        (fun a b => sortKeyOf .type a ≤ sortKeyOf .type b)) := by
  constructor
  · intro s i col h
    constructor
    · intro heq
      simp [on_data_table_header_selected, h, heq]
    · intro hne
      simp [on_data_table_header_selected, h, hne]
  · intro all vis fn ft fs
    refine ⟨rfl, rfl, ?_, ?_, rfl, rfl, ?_, ?_⟩
    · exact List.perm_insertionSort _ _
    · exact List.sorted_insertionSort (sortRel .type true) _
    · exact List.perm_insertionSort _ _
    · exact List.sorted_insertionSort (sortRel .type false) _

/-- C8 helper: the recomputed visible list is a sub-permutation of the
snapshot. -/
theorem apply_filters_subperm (t : AppState) :
    (apply_filters t).filtered_models <+~ t.all_models :=
  ⟨filterChain t, (List.perm_insertionSort _ _).symm, filterChain_sublist t⟩

/-- C8 helper: one engine operation never touches `all_models`, and either
leaves the visible list unchanged (the out-of-range header no-op) or
replaces it by a sub-permutation of the snapshot. -/
theorem stepOp_preserves (o : Op) (s : AppState) :
    (stepOp o s).all_models = s.all_models ∧
    ((stepOp o s).filtered_models = s.filtered_models ∨
      (stepOp o s).filtered_models <+~ s.all_models) := by
  cases o with
  | input id v =>
    cases id <;> exact ⟨rfl, .inr (apply_filters_subperm _)⟩
  | header i =>
    show (on_data_table_header_selected i s).all_models = s.all_models ∧
      ((on_data_table_header_selected i s).filtered_models = s.filtered_models ∨
        (on_data_table_header_selected i s).filtered_models <+~ s.all_models)
    cases hcm : column_map i with
    | none => simp [on_data_table_header_selected, hcm]
    | some col =>
      by_cases heq : s.sort_column = col
      · have hred : on_data_table_header_selected i s =
            apply_filters { s with sort_reverse := !s.sort_reverse } := by
          simp [on_data_table_header_selected, hcm, heq]
        rw [hred]
        exact ⟨rfl, .inr (apply_filters_subperm _)⟩
      · have hred : on_data_table_header_selected i s =
            apply_filters { s with sort_column := col, sort_reverse := false } := by
          simp [on_data_table_header_selected, hcm, heq]
        rw [hred]
        exact ⟨rfl, .inr (apply_filters_subperm _)⟩
  | reset => exact ⟨rfl, .inr (apply_filters_subperm _)⟩

/-- C8 helper: the invariant carried along any operation sequence. -/
theorem runOps_subperm_aux :
    ∀ (ops : List Op) (s : AppState), s.filtered_models <+~ s.all_models →
      (runOps ops s).all_models = s.all_models ∧
        (runOps ops s).filtered_models <+~ s.all_models := by
  intro ops
  induction ops with
  | nil => exact fun s h => ⟨rfl, h⟩
  | cons o t ih =>
    intro s h
    obtain ⟨h1, h2⟩ := stepOp_preserves o s
    have hstep : (stepOp o s).filtered_models <+~ (stepOp o s).all_models := by
      rcases h2 with he | hsp
      · rw [he, h1]; exact h
      · rw [h1]; exact hsp
    obtain ⟨ha, hb⟩ := ih (stepOp o s) hstep
    rw [h1] at ha hb
    exact ⟨ha, hb⟩

/-- C8: starting from a freshly loaded state, after any sequence of
filter/sort/reset operations `visibleRecords` is a sub-permutation (a
sub-multiset) of `allRecords`, and `allRecords` itself is never mutated. -/
theorem visible_records_subperm (models : List Model) (ops : List Op) :
    (runOps ops (init_state models)).all_models = models ∧
    (runOps ops (init_state models)).filtered_models <+~ models :=
  runOps_subperm_aux ops (init_state models) ⟨models, List.Perm.refl _, List.Sublist.refl _⟩

/-- C4 helper: for a clean absolute base and a clean relative storage
path, the pathlib join renders as the naive concatenation
`base ++ "/models/" ++ path`. -/
theorem render_join_models (b p : Str) (hb : cleanAbs b) (hp : cleanRel p) :
    renderPosix (joinSeg (joinSeg (parsePosix b) "models".toList) p) =
      b ++ "/models/".toList ++ p := by
  obtain ⟨hbr, hbp, hbs⟩ := hb
  obtain ⟨hpr, hpp, hps⟩ := hp
  rcases hab : parsePosix b with ⟨br, bps⟩
  rcases hap : parsePosix p with ⟨pr, pps⟩
  rw [hab] at hbr hbp hbs
  rw [hap] at hpr hpp hps
  simp only at hbr hbp hbs hpr hpp hps
  subst hbr
  subst hpr
  have hj1 : joinSeg ⟨1, bps⟩ "models".toList = ⟨1, bps ++ ["models".toList]⟩ := rfl
  have hj2 : joinSeg ⟨1, bps ++ ["models".toList]⟩ p =
      ⟨1, bps ++ ["models".toList] ++ pps⟩ := by
    simp [joinSeg, hap]
  rw [hj1, hj2]
  have hrender : renderPosix ⟨1, bps ++ ["models".toList] ++ pps⟩ =
      ['/'] ++ joinSep ['/'] (bps ++ ["models".toList] ++ pps) := by
    simp [renderPosix]
  rw [hrender]
  have hsplit : bps ++ ["models".toList] ++ pps = bps ++ ("models".toList :: pps) := by
    simp
  rw [hsplit, joinSep_append ['/'] bps ("models".toList :: pps) hbp (by simp)]
  rw [show ("models".toList :: pps) = ["models".toList] ++ pps from rfl,
    joinSep_append ['/'] ["models".toList] pps (by simp) hpp]
  have hbs' : b = ['/'] ++ joinSep ['/'] bps := by
    rw [← hbs]; simp [renderPosix]
  have hps' : p = joinSep ['/'] pps := by
    rw [← hps]; simp [renderPosix, hpp]
  rw [hbs', hps']
  simp [joinSep, List.append_assoc]

/-- C4 helper: under cleanliness, the emitted command list is exactly the
naive-form command mapped over the non-blank-path records, in order. -/
theorem filterMap_symlinks_eq (base : Str) (hb : cleanAbs base) :
    ∀ l : List Model, (∀ m ∈ l, m.path ≠ [] → pyStrip m.path ≠ [] → cleanRel m.path) →
      l.filterMap (fun m =>
        if ¬m.path.isEmpty ∧ ¬(pyStrip m.path).isEmpty then some (symlinkCmd base m.path)
        else none) =
      (l.filter (fun m => !m.path.isEmpty && !(pyStrip m.path).isEmpty)).map
        (fun m => "ln -s ".toList ++ [Char.ofNat 34] ++ base ++ "/models/".toList ++
          m.path ++ [Char.ofNat 34] ++ " .".toList)
  | [], _ => rfl
  | m :: t, h => by
    have ih := filterMap_symlinks_eq base hb t (fun x hx => h x (List.mem_cons_of_mem m hx))
    rw [List.filterMap_cons, List.filter_cons]
    by_cases hc : ¬m.path.isEmpty ∧ ¬(pyStrip m.path).isEmpty
    · have hclean : cleanRel m.path :=
        h m (List.mem_cons_self m t)
          (fun hnil => hc.1 (by simp [hnil]))
          (fun hnil => hc.2 (by simp [hnil]))
      have hcmd : symlinkCmd base m.path =
          "ln -s ".toList ++ [Char.ofNat 34] ++ base ++ "/models/".toList ++
            m.path ++ [Char.ofNat 34] ++ " .".toList := by
        unfold symlinkCmd
        rw [render_join_models base m.path hb hclean]
        simp [List.append_assoc]
      rw [if_pos hc, if_pos (by simp [hc.1, hc.2])]
      rw [List.map_cons, ih, hcmd]
    · rw [if_neg hc]
      have hcb : (!m.path.isEmpty && !(pyStrip m.path).isEmpty) = false := by
        rcases Decidable.not_and_iff_or_not.mp hc with h1 | h1 <;> simp_all
      rw [hcb]
      simp only [Bool.false_eq_true, if_false]
      exact ih

/-- C4 (amended): for a non-empty visible list, a clean absolute base
path and clean relative storage paths, generation emits exactly one
command `ln -s "<base>/models/<path>" .` per non-blank-path record, in
visible order, skipping blank paths (and signals `NoValidPaths` when
nothing survives the skip).  In general the command interpolates the
pathlib join, which only coincides with the naive concatenation under
these cleanliness conditions (see the counterexample with an absolute
storage path). -/
theorem symlink_generation_order (base : Str) (s : AppState)
    (hb : cleanAbs base)
    (hp : ∀ m ∈ s.filtered_models, m.path ≠ [] → pyStrip m.path ≠ [] → cleanRel m.path)
    (hne : s.filtered_models ≠ []) :
    action_generate_symlinks base s =
      (let cmds := (s.filtered_models.filter
            (fun m => !m.path.isEmpty && !(pyStrip m.path).isEmpty)).map
          (fun m => "ln -s ".toList ++ [Char.ofNat 34] ++ base ++ "/models/".toList ++
            m.path ++ [Char.ofNat 34] ++ " .".toList)
      if cmds.isEmpty then SymlinkOutcome.noValidPaths
      else .copied (joinSep ['\n'] cmds) cmds.length) := by
  unfold action_generate_symlinks
  rw [if_neg (by simpa [List.isEmpty_iff] using hne)]
  rw [filterMap_symlinks_eq base hb s.filtered_models hp]

/-- C4 counterexample: with base path `/data` and the absolute storage
path `/y`, the code emits `ln -s "/y" .` (pathlib's join lets an absolute
right operand replace the base), not the claimed literal
`ln -s "/data/models//y" .`. -/
theorem symlink_form_counterexample :
    action_generate_symlinks "/data".toList
        (init_state [{ name := "A".toList, type := [], subtype := [], triggers := [], path := "/y".toList }]) =
      .copied ("ln -s \"/y\" .".toList) 1 ∧
    ("ln -s \"/y\" .".toList ≠ "ln -s \"/data/models//y\" .".toList) := by
  exact ⟨rfl, by decide⟩

/-- Witness for C4 (and the spec's order-preservation example): records
`A(path="x/a.pt")`, `B(path="")`, `C(path="y/c.pt")` with base `/data`
yield exactly the two commands for A and C, in that order. -/
theorem symlink_generation_order_witness :
    action_generate_symlinks "/data".toList exampleState =
      .copied ("ln -s \"/data/models/x/a.pt\" .\nln -s \"/data/models/y/c.pt\" .".toList) 2 := by
  have h := symlink_generation_order "/data".toList exampleState (by decide) (by decide)
    (by decide)
  rw [h]
  rfl

/-- C6: trigger-phrase payload decoding is total and defensive: an absent
payload or one that `json.loads` rejects yields `[]`, a payload decoding
to a JSON array is kept unchanged, and any other successfully decoded
value becomes the one-element list of its Python string form; in
particular `"[\"a\",\"b\"]"` yields `["a","b"]`, `"not json"` yields `[]`
and an absent payload yields `[]`. -/
theorem trigger_phrase_parsing (payload : Option Str) :
    (payload = none → parse_triggers payload = []) ∧
    (∀ s, payload = some s → jsonLoads s = none → parse_triggers payload = []) ∧
    (∀ s xs, payload = some s → jsonLoads s = some (.arr xs) →
      parse_triggers payload = xs.toList) ∧
    (∀ s v, payload = some s → jsonLoads s = some v → (∀ xs, v ≠ .arr xs) →
      parse_triggers payload = [.str (pyStr v)]) ∧
    parse_triggers (some "[\"a\",\"b\"]".toList) = [.str ['a'], .str ['b']] ∧
    parse_triggers (some "not json".toList) = [] ∧
    parse_triggers none = [] := by
  refine ⟨?_, ?_, ?_, ?_, rfl, rfl, rfl⟩
  · intro h
    rw [h]
    rfl
  · intro s hp hj
    subst hp
    simp only [parse_triggers]
    split_ifs with hs
    · rfl
    · rw [hj]
  · intro s xs hp hj
    subst hp
    simp only [parse_triggers]
    split_ifs with hs
    · rw [List.isEmpty_iff] at hs
      subst hs
      exact Option.noConfusion hj
    · rw [hj]
  · intro s v hp hj hv
    subst hp
    simp only [parse_triggers]
    split_ifs with hs
    · rw [List.isEmpty_iff] at hs
      subst hs
      exact Option.noConfusion hj
    · rw [hj]
      cases v with
      | arr xs => exact absurd rfl (hv xs)
      | null => rfl
      | bool b => rfl
      | int n => rfl
      | float raw => rfl
      | str s => rfl
      | obj kvs => rfl

/-- C7: the derived display name is the base name field (with Python's
falsy `or` replacing an absent or empty name by the literal `"Unknown"`)
followed by the extension extracted from the path (empty when the path is
absent, empty, or extensionless), and it is never the empty string; in
particular `{name:"foo", path:"u1/foo.safetensors"}` gives
`"foo.safetensors"` and `{name:"bar", path:null}` gives `"bar"`. -/
theorem display_name_derivation (r : Row) :
    (load_row r).name = orUnknown r.model_name ++ r.model_path.elim [] pathSuffix ∧
    (load_row r).name ≠ [] ∧
    (load_row rowFoo).name = "foo.safetensors".toList ∧
    (load_row rowBar).name = "bar".toList := by
  have hname : (load_row r).name = orUnknown r.model_name ++ r.model_path.elim [] pathSuffix := by
    show orUnknown r.model_name ++
        (match r.model_path with
          | none => ([] : Str)
          | some p => if p.isEmpty then [] else pathSuffix p) = _
    congr 1
    cases r.model_path with
    | none => rfl
    | some p =>
      by_cases hpe : p.isEmpty
      · rw [List.isEmpty_iff] at hpe
        subst hpe
        rfl
      · simp [hpe]
  have hbase : orUnknown r.model_name ≠ [] := by
    cases r.model_name with
    | none => simp [orUnknown]
    | some n =>
      by_cases hn : n.isEmpty
      · simp [orUnknown, hn]
      · simp only [orUnknown]
        rw [if_neg hn]
        exact fun h => hn (List.isEmpty_iff.mpr h)
  refine ⟨hname, ?_, rfl, rfl⟩
  rw [hname]
  intro h
  exact hbase (List.append_eq_nil.mp h).1

end InvokeDB
